import Mathlib

/-!
A shallow embedding of `src/app.py` (Brewvino Booking Placecards Generator)
together with proofs about the claims of its specification.

Modelling conventions:
* A Python string is a Lean `String`; operations are computed on `String.data`
  (a `List Char`).  Python's `str.lower` / `str.capitalize` are modelled by
  explicit ASCII case tables (`asciiLower` / `asciiUpper`), which agree with
  Python on every ASCII character; all literals appearing in the program and
  its spec are ASCII.
* A possibly-missing pandas cell (`NaN`) is `Option String`; `none` is the
  missing value, and `pd.isna` is the `none` test.  Rendering a missing value
  with `str`/an f-string gives `"nan"`.
* Python exceptions are modelled with `Except PyErr`; a `try/except` block is
  a `match` on the body's result.
-/

namespace Brewvino

/-- The Python whitespace characters recognised by `str.strip` / `str.split`
(ASCII fragment: space, tab, newline, carriage return, vertical tab, form feed). -/
def isPyWs (c : Char) : Bool :=
  c = ' ' || c = '\t' || c = '\n' || c = '\r' || c = '\x0b' || c = '\x0c'

/-- `str.strip()` on a character list: drop whitespace from both ends. -/
def trimList (l : List Char) : List Char :=
  ((l.dropWhile isPyWs).reverse.dropWhile isPyWs).reverse

/-- `str.strip()`. -/
def pyStrip (s : String) : String := ⟨trimList s.data⟩

/-- ASCII lower-casing (the effect of Python `str.lower` on ASCII text). -/
def asciiLower (c : Char) : Char :=
  match c with
  | 'A' => 'a' | 'B' => 'b' | 'C' => 'c' | 'D' => 'd' | 'E' => 'e' | 'F' => 'f'
  | 'G' => 'g' | 'H' => 'h' | 'I' => 'i' | 'J' => 'j' | 'K' => 'k' | 'L' => 'l'
  | 'M' => 'm' | 'N' => 'n' | 'O' => 'o' | 'P' => 'p' | 'Q' => 'q' | 'R' => 'r'
  | 'S' => 's' | 'T' => 't' | 'U' => 'u' | 'V' => 'v' | 'W' => 'w' | 'X' => 'x'
  | 'Y' => 'y' | 'Z' => 'z' | d => d

/-- ASCII upper-casing (the effect of Python `str.upper` on ASCII text). -/
def asciiUpper (c : Char) : Char :=
  match c with
  | 'a' => 'A' | 'b' => 'B' | 'c' => 'C' | 'd' => 'D' | 'e' => 'E' | 'f' => 'F'
  | 'g' => 'G' | 'h' => 'H' | 'i' => 'I' | 'j' => 'J' | 'k' => 'K' | 'l' => 'L'
  | 'm' => 'M' | 'n' => 'N' | 'o' => 'O' | 'p' => 'P' | 'q' => 'Q' | 'r' => 'R'
  | 's' => 'S' | 't' => 'T' | 'u' => 'U' | 'v' => 'V' | 'w' => 'W' | 'x' => 'X'
  | 'y' => 'Y' | 'z' => 'Z' | d => d

/-- Python `str.lower` on a character list. -/
def pyLowerList (l : List Char) : List Char := l.map asciiLower

/-- Python `word.capitalize()`: first character upper-cased, the rest lower-cased. -/
def pyCapitalize (w : List Char) : List Char :=
  match w with
  | [] => []
  | c :: cs => asciiUpper c :: cs.map asciiLower

/-- Split a character list at every character satisfying `p`, keeping empty
segments (the behaviour of Python `str.split(sep)` for a one-character `sep`
when `p` tests for that separator). -/
def splitOnPred (p : Char → Bool) : List Char → List (List Char)
  | [] => [[]]
  | c :: l =>
    match splitOnPred p l with
    | [] => [[c]]    -- unreachable: splitOnPred never returns []
    | w :: ws => if p c then [] :: w :: ws else (c :: w) :: ws

/-- Python `str.split()` with no argument: split on whitespace runs and drop
the empty segments. -/
def pySplitWs (l : List Char) : List (List Char) :=
  (splitOnPred isPyWs l).filter (fun w => w ≠ [])

/-- Python `sep.join(parts)` for a (character-list) separator. -/
def joinWith (sep : List Char) : List (List Char) → List Char
  | [] => []
  | [w] => w
  | w :: w2 :: ws => w ++ sep ++ joinWith sep (w2 :: ws)

/-- The first maximal run of digits in a character list
(`re.findall(r'\d+', s)[0]` when it exists). -/
def firstDigitRun : List Char → Option (List Char)
  | [] => none
  | c :: cs => if c.isDigit then some (c :: cs.takeWhile Char.isDigit) else firstDigitRun cs

/-- Does `pat` occur at the very start of `l`? -/
def startsWithList : List Char → List Char → Bool
  | [], _ => true
  | _ :: _, [] => false
  | p :: ps, c :: cs => p = c && startsWithList ps cs

/-- Substring test: does `pat` occur contiguously inside `l`
(Python's `pat in l`)? -/
def containsSub (pat : List Char) : List Char → Bool
  | [] => decide (pat = [])
  | c :: rest => startsWithList pat (c :: rest) || containsSub pat rest

/-- Rendering of a possibly-missing cell by `str`/an f-string: a missing
(`NaN`) value prints as `"nan"`. -/
def pyStrOfOpt : Option String → String
  | none => "nan"
  | some s => s

/-! ## Field normalizers (`capitalize_customer_name`, `extract_table_numbers`,
`calculate_end_time` from `src/app.py`) -/

/-- The "common prefixes and suffixes" list from `capitalize_customer_name`
(`['mc', 'mac', "o'", 'de', 'van', 'von', 'la', 'le']`). -/
def particleList : List (List Char) :=
  ["mc", "mac", "o\x27", "de", "van", "von", "la", "le"].map String.data

/-- The body of the word loop of `capitalize_customer_name`: both branches of
the source's `if word.lower() in [...]` call `word.capitalize()`. -/
def capWordBranch (w : List Char) : List Char :=
  if pyLowerList w ∈ particleList then pyCapitalize w else pyCapitalize w

/-- `capitalize_customer_name` (src/app.py:140-165).  `none` models a `NaN`
cell.  Note the `pd.isna(name) or name == ""` guard tests the *unstripped*
input. -/
def capitalize_customer_name (x : Option String) : String :=
  match x with
  | none => "Guest"
  | some name =>
    if name = "" then "Guest"
    else
      let t := trimList name.data
      if pyLowerList t = "walk in".data then "Walk In"
      else
        let words := pySplitWs t
        -- `for word in words: if word: ... append(word.capitalize())`
        ⟨joinWith [' '] ((words.filter (fun w => w ≠ [])).map capWordBranch)⟩

/-- `extract_table_numbers` (src/app.py:167-186). -/
def extract_table_numbers (x : Option String) : String :=
  match x with
  | none => "TBD"
  | some ts =>
    if ts = "" then "TBD"
    else
      let tables := splitOnPred (fun c => c = ',') ts.data
      let cleaned := tables.filterMap (fun t => firstDigitRun (trimList t))
      if cleaned ≠ [] then ⟨joinWith [','] cleaned⟩ else "TBD"

/-! ## Time parsing (`calculate_end_time`)

`datetime.strptime` with the four formats of the source is modelled by four
parsers over `List Char`.  Python's `_strptime` compiles `%I` to the regex
`1[0-2]|0[1-9]|[1-9]`, `%H` to `2[0-3]|[0-1]\d|\d`, `%M` to `[0-5]\d|\d`,
`%p` to the locale AM/PM strings matched case-insensitively, and a whitespace
character of the format to `\s+`; the whole input must be consumed.  Because
in every one of the four formats the hour/minute field is followed by a
non-digit (or the end of the input), those regexes accept exactly: the
maximal leading digit run, of length 1 or 2, whose value lies in the field's
range (for `%I` additionally the value 0 is excluded). -/

/-- Read the maximal leading digit run; succeed when it has length 1 or 2 and
its value is in `[lo, hi]`. -/
def parseNum2 (lo hi : Nat) (l : List Char) : Option (Nat × List Char) :=
  let run := l.takeWhile Char.isDigit
  let rest := l.dropWhile Char.isDigit
  if run.length = 1 || run.length = 2 then
    let v := run.foldl (fun a c => a * 10 + (c.toNat - 48)) 0
    if lo ≤ v && v ≤ hi then some (v, rest) else none
  else none

/-- Expect the literal character `c`. -/
def parseLit (c : Char) (l : List Char) : Option (List Char) :=
  match l with
  | [] => none
  | d :: rest => if d = c then some rest else none

/-- `\s+`: one or more whitespace characters. -/
def parseWs1 (l : List Char) : Option (List Char) :=
  if (l.takeWhile isPyWs).length = 0 then none else some (l.dropWhile isPyWs)

/-- `%p`: `AM`/`PM` case-insensitively; returns `true` for PM. -/
def parseAmPm (l : List Char) : Option (Bool × List Char) :=
  match l with
  | c1 :: c2 :: rest =>
    if asciiLower c2 = 'm' then
      if asciiLower c1 = 'a' then some (false, rest)
      else if asciiLower c1 = 'p' then some (true, rest)
      else none
    else none
  | _ => none

/-- Python's 12-hour + AM/PM to 24-hour conversion (`%I` with `%p`). -/
def to24 (h12 : Nat) (pm : Bool) : Nat :=
  if pm then h12 % 12 + 12 else h12 % 12

/-- `%I:%M %p` (e.g. `7:30 PM`); result is (hour24, minute). -/
def strptimeIMSp (l : List Char) : Option (Nat × Nat) :=
  match parseNum2 1 12 l with
  | none => none
  | some (h12, r1) =>
    match parseLit ':' r1 with
    | none => none
    | some r2 =>
      match parseNum2 0 59 r2 with
      | none => none
      | some (m, r3) =>
        match parseWs1 r3 with
        | none => none
        | some r4 =>
          match parseAmPm r4 with
          | some (pm, []) => some (to24 h12 pm, m)
          | _ => none

/-- `%H:%M` (e.g. `19:30`). -/
def strptimeHM (l : List Char) : Option (Nat × Nat) :=
  match parseNum2 0 23 l with
  | none => none
  | some (h, r1) =>
    match parseLit ':' r1 with
    | none => none
    | some r2 =>
      match parseNum2 0 59 r2 with
      | some (m, []) => some (h, m)
      | _ => none

/-- `%I%p` (e.g. `7PM`). -/
def strptimeIp (l : List Char) : Option (Nat × Nat) :=
  match parseNum2 1 12 l with
  | none => none
  | some (h12, r1) =>
    match parseAmPm r1 with
    | some (pm, []) => some (to24 h12 pm, 0)
    | _ => none

/-- `%I:%M%p` (e.g. `7:30PM`, no space before the suffix). -/
def strptimeIMp (l : List Char) : Option (Nat × Nat) :=
  match parseNum2 1 12 l with
  | none => none
  | some (h12, r1) =>
    match parseLit ':' r1 with
    | none => none
    | some r2 =>
      match parseNum2 0 59 r2 with
      | none => none
      | some (m, r3) =>
        match parseAmPm r3 with
        | some (pm, []) => some (to24 h12 pm, m)
        | _ => none

/-- The format loop of `calculate_end_time`: try the four formats in the
source's order, first success wins. -/
def tryFormats (s : String) : Option (Nat × Nat) :=
  match strptimeIMSp s.data with
  | some t => some t
  | none =>
    match strptimeHM s.data with
    | some t => some t
    | none =>
      match strptimeIp s.data with
      | some t => some t
      | none => strptimeIMp s.data

/-- Two-digit zero-padded decimal rendering (`%I`/`%M` fields of `strftime`). -/
def pad2 (n : Nat) : String :=
  if n < 10 then "0" ++ toString n else toString n

/-- `strftime("%I:%M %p")` for an (hour24, minute) pair. -/
def strftimeIMSp (h m : Nat) : String :=
  pad2 ((h + 11) % 12 + 1) ++ ":" ++ pad2 m ++ " " ++ (if h < 12 then "AM" else "PM")

/-- Python `s.lstrip('0')`: drop every leading `'0'`. -/
def pyLstripZeros (s : String) : String := ⟨s.data.dropWhile (fun c => c = '0')⟩

/-- Python exceptions that the program can raise internally. -/
inductive PyErr where
  | attributeError   -- e.g. `float(nan).strip()`
  | osError          -- e.g. `PermissionError` from `open`
  | jsonDecodeError  -- `json.load` on malformed content
deriving DecidableEq

/-- The body of the `try:` block of `calculate_end_time` (src/app.py:190-218).
A missing (`NaN`) booking time raises `AttributeError` at `.strip()`; the
inner per-format `except ValueError` is the failure of each parser, already
folded into `tryFormats`.  An unparseable string *returns* the passthrough
from inside the `try`. -/
def calc_end_time_body (bt : Option String) : Except PyErr String :=
  match bt with
  | none => .error .attributeError
  | some s =>
    .ok (match tryFormats (pyStrip s) with
      | none => s ++ " - " ++ s
      | some (h, m) =>
        pyLstripZeros (strftimeIMSp h m) ++ " - " ++ pyLstripZeros (strftimeIMSp ((h + 2) % 24) m))

/-- `calculate_end_time` (src/app.py:188-222): the `try` body with the
catch-all `except` returning the passthrough. -/
def calculate_end_time (bt : Option String) : String :=
  match calc_end_time_body bt with
  | .ok r => r
  | .error _ => pyStrOfOpt bt ++ " - " ++ pyStrOfOpt bt

/-- `calculate_end_time` seen at the exception level: the function including
its catch-all handler; an error would mean an exception escaping the
function. -/
def calc_end_time_checked (bt : Option String) : Except PyErr String :=
  match calc_end_time_body bt with
  | .ok r => .ok r
  | .error _ => .ok (pyStrOfOpt bt ++ " - " ++ pyStrOfOpt bt)

/-- The 12-hour rendering the spec describes: no leading zero, two-digit
minutes, an `AM`/`PM` suffix. -/
def render12 (h m : Nat) : String :=
  toString ((h + 11) % 12 + 1) ++ ":" ++ pad2 m ++ " " ++ (if h < 12 then "AM" else "PM")

/-! ## CSV structure validation and the record model -/

/-- The required column names (src/app.py:226). -/
def required_columns : List String :=
  ["Service or Event", "Time", "Number of People", "Customer", "Table(s)"]

/-- The `missing_columns` list computed by `validate_csv_structure`
(src/app.py:227): the required columns absent from the frame, in the
required order.  It is also exactly the set of labels a pandas `KeyError`
from `df[[...]]` reports when constructing `df2` (src/app.py:463). -/
def missing_columns (cols : List String) : List String :=
  required_columns.filter (fun c => ¬ cols.contains c)

/-- `validate_csv_structure` (src/app.py:224-233): succeed iff no required
column is missing; on failure the error message lists `missing_columns`. -/
def validate_csv_structure (cols : List String) : Bool :=
  missing_columns cols = []

/-- One booking row, restricted to the five required columns (the projection
`df2`).  Each field may be a missing (`NaN`) cell. -/
structure Booking where
  service : Option String   -- "Service or Event"
  time : Option String      -- "Time"
  people : Option String    -- "Number of People" (displayed as-is)
  customer : Option String  -- "Customer"
  tables : Option String    -- "Table(s)"
deriving DecidableEq

/-- The uploaded CSV after `pd.read_csv`: its column labels and its rows
(each row carrying the five modelled fields). -/
structure Csv where
  cols : List String
  rows : List Booking

/-! ## Record filter (src/app.py:483-492) -/

/-- The match predicate of
`df2['Service or Event'].str.lower().str.contains(kw, na=False)`:
a missing field never matches (`na=False`); otherwise the lower-cased field
must contain `kw` as a substring. -/
def serviceMatches (kw : String) (r : Booking) : Bool :=
  match r.service with
  | none => false
  | some s => containsSub kw.data (pyLowerList s.data)

/-- The boolean-mask row filter `df2[mask]`: the subsequence of rows whose
service field matches. -/
def filter_bookings (recs : List Booking) (kw : String) : List Booking :=
  recs.filter (serviceMatches kw)

/-- The radio-button choice of `main`. -/
inductive FilterOption where
  | all | lunchOnly | dinnerOnly
deriving DecidableEq

/-- The filtering step of `main` (src/app.py:483-492). -/
def apply_filter (rows : List Booking) (opt : FilterOption) : List Booking :=
  match opt with
  | .lunchOnly => filter_bookings rows "lunch"
  | .dinnerOnly => filter_bookings rows "dinner"
  | .all => rows

/-- The download filename chosen by `main` (src/app.py:563-568). -/
def filename_for (opt : FilterOption) : String :=
  match opt with
  | .lunchOnly => "brewvino_placecards_lunch.pdf"
  | .dinnerOnly => "brewvino_placecards_dinner.pdf"
  | .all => "brewvino_placecards_all_services.pdf"

/-! ## Card layout and pagination (`create_single_card`, `generate_placecards`) -/

/-- The content of one placecard built by `create_single_card`
(src/app.py:343-442): the fixed header, the normalized name, the computed
time range, and the two footer labels. -/
structure Placecard where
  header : String
  name : String
  time_range : String
  tableLabel : String
  partyLabel : String
deriving DecidableEq

/-- `create_single_card` restricted to its textual content. -/
def create_single_card (r : Booking) : Placecard :=
  { header := "RESERVED"
    name := capitalize_customer_name r.customer
    time_range := calculate_end_time r.time
    tableLabel := "T" ++ extract_table_numbers r.tables
    partyLabel := pyStrOfOpt r.people ++ "P" }

/-- One grid cell: a card, or the blank filler `""` (no border, no content)
used to pad a partly filled page. -/
abbrev Cell := Option Placecard

/-- One page: a 2x2 grid as two rows of two cells (row-major). -/
structure Page2x2 where
  row1 : List Cell
  row2 : List Cell
deriving DecidableEq

/-- Pad a row to two cells with blanks (the `while len(row) < 2:
row.append("")` loops). -/
def padRowTo2 (cells : List Cell) : List Cell :=
  cells ++ List.replicate (2 - cells.length) none

/-- Build one page from a chunk of at most 4 bookings
(src/app.py:287-314): the first two go to the top row, the next two to
the bottom row, and missing spots become blank cells. -/
def build_page (chunk : List Booking) : Page2x2 :=
  let row1 := (chunk.take 2).map (fun r => some (create_single_card r))
  let row2 :=
    if 2 < chunk.length then
      ((chunk.drop 2).take 2).map (fun r => some (create_single_card r))
    else []
  ⟨padRowTo2 row1, padRowTo2 row2⟩

/-- One element of the reportlab `story`: a page table or a `PageBreak`. -/
inductive StoryItem where
  | page (p : Page2x2)
  | pageBreak
deriving DecidableEq

/-- `generate_placecards` (src/app.py:283-337), restricted to the story it
builds: process bookings in groups of 4 (`range(0, len(df), 4)`), one page
per group, appending a `PageBreak` exactly when more bookings remain
(`if page_start + 4 < len(df)`). -/
def generate_placecards (l : List Booking) : List StoryItem :=
  match l with
  | [] => []
  | r :: rest =>
    let chunk := (r :: rest).take 4
    let remaining := (r :: rest).drop 4
    StoryItem.page (build_page chunk) ::
      (match remaining with
       | [] => []
       | _ :: _ => StoryItem.pageBreak :: generate_placecards remaining)
termination_by l.length
decreasing_by simp [List.drop]; omega

/-- The consecutive chunks of at most 4 records underlying the page loop. -/
def chunks4 (l : List Booking) : List (List Booking) :=
  match l with
  | [] => []
  | r :: rest => (r :: rest).take 4 :: chunks4 ((r :: rest).drop 4)
termination_by l.length
decreasing_by simp [List.drop]; omega

/-- The pages of a story, in order. -/
def pagesOf (story : List StoryItem) : List Page2x2 :=
  story.filterMap (fun i => match i with | .page p => some p | .pageBreak => none)

/-- The cards of a page, row-major. -/
def cardsOf (p : Page2x2) : List Placecard :=
  (p.row1 ++ p.row2).filterMap id

/-! ## Main pipeline (`main`, src/app.py:444-582) -/

/-- The observable outcome of one run of `main` on an uploaded CSV.
`csvReadError` is the `except` handler at src/app.py:581 catching the pandas
`KeyError` raised when `df2 = df.copy()[[...]]` selects a missing column; it
carries the labels the `KeyError` names, which are exactly the missing
required columns.  `invalidCsv` is the `validate_csv_structure` failure path.
`emptyFiltered` is the `st.warning`/`st.stop()` path for an empty filter
result. -/
inductive MainOutcome where
  | csvReadError (missing : List String)
  | invalidCsv (missing : List String)
  | emptyFiltered
  | generated (story : List StoryItem) (filename : String)
deriving DecidableEq

/-- The record-processing pipeline of `main`: column selection (which fails
first when a required column is missing), structure validation, service
filtering with the empty-result stop, then placecard generation. -/
def runMain (csv : Csv) (opt : FilterOption) : MainOutcome :=
  if missing_columns csv.cols ≠ [] then .csvReadError (missing_columns csv.cols)
  else if ¬ validate_csv_structure csv.cols then .invalidCsv (missing_columns csv.cols)
  else
    let filtered := apply_filter csv.rows opt
    if filtered = [] then .emptyFiltered
    else .generated (generate_placecards filtered) (filename_for opt)

/-! ## Design specifications (`load_design_specs`, `get_default_specs`) -/

/-- The style configuration (the JSON object of `design_specs.json`).
Physical sizes are exact rationals (3.5, 2.5, 0.5 inches). -/
structure DesignSpecs where
  font_family : String
  title_font_size : Nat
  content_font_size : Nat
  card_width : ℚ
  card_height : ℚ
  margin : ℚ
  background_color : String
  text_color : String
  border : Bool
  border_color : String
deriving DecidableEq

/-- `get_default_specs` (src/app.py:28-41). -/
def get_default_specs : DesignSpecs :=
  { font_family := "Helvetica"
    title_font_size := 14
    content_font_size := 12
    card_width := 7/2
    card_height := 5/2
    margin := 1/2
    background_color := "white"
    text_color := "black"
    border := true
    border_color := "gray" }

/-- What reaching for `design_specs.json` can yield: the file is absent
(`FileNotFoundError`), opening it fails otherwise (e.g. `PermissionError`),
or it opens and `json.load` either parses a spec object or raises. -/
inductive SpecsSource where
  | fileNotFound
  | osError
  | opened (parsed : Except Unit DesignSpecs)

/-- `load_design_specs` (src/app.py:19-26): only `FileNotFoundError` is
caught (returning the defaults and issuing a non-fatal warning, the `Bool`
flag); any other failure of `open` or of `json.load` propagates. -/
def load_design_specs (src : SpecsSource) : Except PyErr (DesignSpecs × Bool) :=
  match src with
  | .fileNotFound => .ok (get_default_specs, true)
  | .osError => .error .osError
  | .opened (.error _) => .error .jsonDecodeError
  | .opened (.ok specs) => .ok (specs, false)

/-! ## Lemmas: ASCII case tables -/

/-- The upper/lower letter pairs of the ASCII alphabet. -/
def ucLc : List (Char × Char) :=
  [('A','a'), ('B','b'), ('C','c'), ('D','d'), ('E','e'), ('F','f'), ('G','g'),
   ('H','h'), ('I','i'), ('J','j'), ('K','k'), ('L','l'), ('M','m'), ('N','n'),
   ('O','o'), ('P','p'), ('Q','q'), ('R','r'), ('S','s'), ('T','t'), ('U','u'),
   ('V','v'), ('W','w'), ('X','x'), ('Y','y'), ('Z','z')]

theorem asciiLower_spec (c : Char) :
    ((∀ p ∈ ucLc, c ≠ p.1) ∧ asciiLower c = c) ∨
      (∃ p ∈ ucLc, c = p.1 ∧ asciiLower c = p.2) := by
  unfold asciiLower
  split
  all_goals first
    | decide
    | (left; refine ⟨?_, rfl⟩; intro p hp; fin_cases hp <;> simp_all)

theorem asciiUpper_spec (c : Char) :
    ((∀ p ∈ ucLc, c ≠ p.2) ∧ asciiUpper c = c) ∨
      (∃ p ∈ ucLc, c = p.2 ∧ asciiUpper c = p.1) := by
  unfold asciiUpper
  split
  all_goals first
    | decide
    | (left; refine ⟨?_, rfl⟩; intro p hp; fin_cases hp <;> simp_all)

theorem asciiLower_idem (c : Char) : asciiLower (asciiLower c) = asciiLower c := by
  rcases asciiLower_spec c with ⟨_, h⟩ | ⟨p, hp, hc, h⟩
  · rw [h, h]
  · fin_cases hp <;> simp_all <;> decide

theorem asciiUpper_idem (c : Char) : asciiUpper (asciiUpper c) = asciiUpper c := by
  rcases asciiUpper_spec c with ⟨_, h⟩ | ⟨p, hp, hc, h⟩
  · rw [h, h]
  · fin_cases hp <;> simp_all <;> decide

theorem asciiLower_asciiUpper (c : Char) :
    asciiLower (asciiUpper c) = asciiLower c := by
  rcases asciiUpper_spec c with ⟨_, h⟩ | ⟨p, hp, hc, h⟩
  · rw [h]
  · fin_cases hp <;> simp_all <;> decide

theorem isPyWs_asciiLower (c : Char) : isPyWs (asciiLower c) = isPyWs c := by
  rcases asciiLower_spec c with ⟨_, h⟩ | ⟨p, hp, hc, h⟩
  · rw [h]
  · fin_cases hp <;> simp_all <;> decide

theorem isPyWs_asciiUpper (c : Char) : isPyWs (asciiUpper c) = isPyWs c := by
  rcases asciiUpper_spec c with ⟨_, h⟩ | ⟨p, hp, hc, h⟩
  · rw [h]
  · fin_cases hp <;> simp_all <;> decide

/-- A character lower-casing to `d` is `d` itself or the upper-case partner
of `d`. -/
theorem eq_of_asciiLower_eq {u d : Char} (h : asciiLower u = d) :
    u = d ∨ u = asciiUpper d := by
  rcases asciiLower_spec u with ⟨_, h2⟩ | ⟨p, hp, hc, h2⟩
  · left; rw [← h, h2]
  · right
    rw [h2] at h
    subst hc
    fin_cases hp <;> (rw [← h]; decide)

/-! ## Lemmas: splitting, joining, trimming -/

theorem splitOnPred_ne_nil (p : Char → Bool) (l : List Char) :
    splitOnPred p l ≠ [] := by
  induction l with
  | nil => simp [splitOnPred]
  | cons c l ih =>
    rw [splitOnPred]
    cases h : splitOnPred p l with
    | nil => exact absurd h ih
    | cons w ws => by_cases hp : p c <;> simp [hp]

/-- Every character of a segment produced by `splitOnPred` fails `p`. -/
theorem splitOnPred_mem_chars (p : Char → Bool) :
    ∀ (l : List Char) (w : List Char), w ∈ splitOnPred p l → ∀ c ∈ w, p c = false := by
  intro l
  induction l with
  | nil =>
    intro w hw c hc
    simp [splitOnPred] at hw
    subst hw
    simp at hc
  | cons d l ih =>
    intro w hw c hc
    rw [splitOnPred] at hw
    cases hs : splitOnPred p l with
    | nil => exact absurd hs (splitOnPred_ne_nil p l)
    | cons v vs =>
      rw [hs] at hw
      dsimp only at hw
      by_cases hp : p d
      · rw [if_pos hp] at hw
        rcases List.mem_cons.mp hw with hw | hw
        · subst hw; simp at hc
        · exact ih w (hs ▸ hw) c hc
      · rw [if_neg hp] at hw
        rcases List.mem_cons.mp hw with hw | hw
        · subst hw
          rcases List.mem_cons.mp hc with hc | hc
          · subst hc; simpa using hp
          · exact ih v (by rw [hs]; exact List.mem_cons_self ..) c hc
        · exact ih w (by rw [hs]; exact List.mem_cons_of_mem _ hw) c hc

/-- A list with no separator characters splits into a single segment. -/
theorem splitOnPred_eq_single (p : Char → Bool) (w : List Char)
    (h : ∀ c ∈ w, p c = false) : splitOnPred p w = [w] := by
  induction w with
  | nil => rfl
  | cons c w ih =>
    rw [splitOnPred, ih (fun d hd => h d (List.mem_cons_of_mem _ hd))]
    simp [h c (List.mem_cons_self ..)]

/-- Splitting a separator-free block followed by a separator peels off the
block as one segment. -/
theorem splitOnPred_block (p : Char → Bool) (sep : Char) (hs : p sep = true) :
    ∀ (w rest : List Char), (∀ c ∈ w, p c = false) →
      splitOnPred p (w ++ sep :: rest) = w :: splitOnPred p rest := by
  intro w
  induction w with
  | nil =>
    intro rest _
    rw [List.nil_append, splitOnPred]
    cases h : splitOnPred p rest with
    | nil => exact absurd h (splitOnPred_ne_nil p rest)
    | cons v vs => simp [hs]
  | cons c w ih =>
    intro rest hw
    rw [List.cons_append, splitOnPred,
      ih rest (fun d hd => hw d (List.mem_cons_of_mem _ hd))]
    simp [hw c (List.mem_cons_self ..)]

/-- Splitting is a left inverse of joining separator-free nonempty segments. -/
theorem splitOnPred_joinWith (p : Char → Bool) (sep : Char) (hs : p sep = true) :
    ∀ (parts : List (List Char)), parts ≠ [] →
      (∀ w ∈ parts, ∀ c ∈ w, p c = false) →
      splitOnPred p (joinWith [sep] parts) = parts := by
  intro parts
  induction parts with
  | nil => intro h; exact absurd rfl h
  | cons w ws ih =>
    intro _ hchars
    cases ws with
    | nil =>
      rw [joinWith]
      exact splitOnPred_eq_single p w (hchars w (List.mem_cons_self ..))
    | cons w2 ws2 =>
      have : joinWith [sep] (w :: w2 :: ws2) = w ++ sep :: joinWith [sep] (w2 :: ws2) := by
        rw [joinWith]; simp
      rw [this, splitOnPred_block p sep hs w _ (hchars w (List.mem_cons_self ..)),
        ih (by simp) (fun v hv => hchars v (List.mem_cons_of_mem _ hv))]

theorem joinWith_ne_nil (sep : List Char) (w : List Char) (ws : List (List Char))
    (hw : w ≠ []) : joinWith sep (w :: ws) ≠ [] := by
  cases ws with
  | nil => rw [joinWith]; exact hw
  | cons w2 ws2 => rw [joinWith]; simp [hw]

theorem joinWith_head? (sep : List Char) (w : List Char) (ws : List (List Char))
    (hw : w ≠ []) : (joinWith sep (w :: ws)).head? = w.head? := by
  cases ws with
  | nil => rw [joinWith]
  | cons w2 ws2 =>
    rw [joinWith]
    cases w with
    | nil => exact absurd rfl hw
    | cons c cs => simp

theorem joinWith_getLast? (sep : List Char) :
    ∀ (parts : List (List Char)), parts ≠ [] → (∀ w ∈ parts, w ≠ []) →
      ∃ w ∈ parts, (joinWith sep parts).getLast? = w.getLast? := by
  intro parts
  induction parts with
  | nil => intro h; exact absurd rfl h
  | cons w ws ih =>
    intro _ hne
    cases ws with
    | nil => exact ⟨w, List.mem_cons_self .., by rw [joinWith]⟩
    | cons w2 ws2 =>
      obtain ⟨v, hv, hlast⟩ := ih (by simp) (fun u hu => hne u (List.mem_cons_of_mem _ hu))
      refine ⟨v, List.mem_cons_of_mem _ hv, ?_⟩
      rw [joinWith, List.append_assoc, List.getLast?_append, List.getLast?_append, hlast]
      have hv3 : v ≠ [] := hne v (List.mem_cons_of_mem _ hv)
      cases hv2 : v.getLast? with
      | none =>
        exfalso
        apply hv3
        rw [← List.head?_reverse] at hv2
        cases hr : v.reverse with
        | nil => simpa using congrArg List.reverse hr
        | cons e es => rw [hr] at hv2; simp at hv2
      | some d => simp

/-- `List.map` distributes over `joinWith`. -/
theorem map_joinWith (f : Char → Char) (sep : List Char) :
    ∀ (parts : List (List Char)),
      (joinWith sep parts).map f = joinWith (sep.map f) (parts.map (List.map f)) := by
  intro parts
  induction parts with
  | nil => rfl
  | cons w ws ih =>
    cases ws with
    | nil => rfl
    | cons w2 ws2 => rw [joinWith]; simp only [List.map_append, ih]; rfl

theorem dropWhile_eq_self_of_head (p : Char → Bool) (l : List Char)
    (h : ∀ c, l.head? = some c → p c = false) : l.dropWhile p = l := by
  cases l with
  | nil => rfl
  | cons c cs => simp [List.dropWhile_cons, h c rfl]

theorem head_dropWhile_false (p : Char → Bool) :
    ∀ (l : List Char) (c : Char), (l.dropWhile p).head? = some c → p c = false := by
  intro l
  induction l with
  | nil => intro c h; simp at h
  | cons d ds ih =>
    intro c h
    rw [List.dropWhile_cons] at h
    by_cases hp : p d
    · exact ih c (by simpa [hp] using h)
    · simp [hp] at h
      subst h
      exact Bool.of_not_eq_true hp

theorem trimList_eq_self (l : List Char)
    (h1 : ∀ c, l.head? = some c → isPyWs c = false)
    (h2 : ∀ c, l.getLast? = some c → isPyWs c = false) : trimList l = l := by
  unfold trimList
  rw [dropWhile_eq_self_of_head _ _ h1,
    dropWhile_eq_self_of_head _ _ (fun c hc => h2 c (by rwa [List.head?_reverse] at hc)),
    List.reverse_reverse]

theorem trimList_eq_self_of_all (l : List Char)
    (h : ∀ c ∈ l, isPyWs c = false) : trimList l = l := by
  refine trimList_eq_self l (fun c hc => ?_) (fun c hc => ?_)
  · exact h c (List.mem_of_mem_head? hc)
  · rw [← List.head?_reverse] at hc
    exact h c (List.mem_reverse.mp (List.mem_of_mem_head? hc))

/-- The first character of a nonempty trimmed list is not whitespace. -/
theorem trimList_head (l : List Char) (c : Char)
    (h : (trimList l).head? = some c) : isPyWs c = false := by
  unfold trimList at h
  rw [List.head?_reverse] at h
  set m := l.dropWhile isPyWs with hm
  have hsuffix : (m.reverse.takeWhile isPyWs) ++ (m.reverse.dropWhile isPyWs) = m.reverse :=
    List.takeWhile_append_dropWhile ..
  rcases hd : m.reverse.dropWhile isPyWs with _ | ⟨d, ds⟩
  · rw [hd] at h; simp at h
  · rw [hd] at h
    have : (m.reverse.dropWhile isPyWs).getLast? = m.reverse.getLast? := by
      conv_rhs => rw [← hsuffix]
      rw [List.getLast?_append, hd]
      cases hg : (d :: ds).getLast? with
      | none => simp at hg
      | some e => simp
    rw [hd] at this
    rw [this] at h
    rw [List.getLast?_reverse] at h
    exact head_dropWhile_false isPyWs l c h

/-- The last character of a nonempty trimmed list is not whitespace. -/
theorem trimList_getLast (l : List Char) (c : Char)
    (h : (trimList l).getLast? = some c) : isPyWs c = false := by
  unfold trimList at h
  rw [List.getLast?_reverse] at h
  exact head_dropWhile_false isPyWs _ c h

/-- If every segment of a split is empty, every character is a separator. -/
theorem all_sep_of_splitOnPred_all_nil (p : Char → Bool) :
    ∀ (l : List Char), (∀ w ∈ splitOnPred p l, w = []) → ∀ c ∈ l, p c = true := by
  intro l
  induction l with
  | nil => intro _ c hc; simp at hc
  | cons d ds ih =>
    intro h c hc
    rw [splitOnPred] at h
    cases hs : splitOnPred p ds with
    | nil => exact absurd hs (splitOnPred_ne_nil p ds)
    | cons v vs =>
      rw [hs] at h
      by_cases hp : p d
      · simp [hp] at h
        rcases List.mem_cons.mp hc with hc | hc
        · subst hc; exact hp
        · refine ih (fun w hw => ?_) c hc
          rw [hs] at hw
          rcases List.mem_cons.mp hw with hw | hw
          · subst hw; exact h.1
          · exact h.2 w hw
      · simp [hp] at h

/-! ## Lemmas: digit runs -/

theorem firstDigitRun_spec :
    ∀ (l r : List Char), firstDigitRun l = some r →
      r ≠ [] ∧ ∀ c ∈ r, c.isDigit = true := by
  intro l
  induction l with
  | nil => intro r h; simp [firstDigitRun] at h
  | cons c cs ih =>
    intro r h
    rw [firstDigitRun] at h
    by_cases hd : c.isDigit
    · rw [if_pos hd] at h
      obtain rfl : c :: cs.takeWhile Char.isDigit = r := by simpa using h
      refine ⟨by simp, fun d hd2 => ?_⟩
      rcases List.mem_cons.mp hd2 with h2 | h2
      · subst h2; exact hd
      · exact List.mem_takeWhile_imp h2
    · rw [if_neg hd] at h
      exact ih r h

theorem firstDigitRun_all_digits (l : List Char) (hne : l ≠ [])
    (h : ∀ c ∈ l, c.isDigit = true) : firstDigitRun l = some l := by
  cases l with
  | nil => exact absurd rfl hne
  | cons c cs =>
    rw [firstDigitRun, if_pos (h c (List.mem_cons_self ..)),
      List.takeWhile_eq_self_iff.mpr (fun d hd => h d (List.mem_cons_of_mem _ hd))]

theorem isPyWs_false_of_isDigit {c : Char} (h : c.isDigit = true) :
    isPyWs c = false := by
  unfold isPyWs
  have h1 : c ≠ ' ' := by rintro rfl; exact absurd h (by decide)
  have h2 : c ≠ '\t' := by rintro rfl; exact absurd h (by decide)
  have h3 : c ≠ '\n' := by rintro rfl; exact absurd h (by decide)
  have h4 : c ≠ '\r' := by rintro rfl; exact absurd h (by decide)
  have h5 : c ≠ '\x0b' := by rintro rfl; exact absurd h (by decide)
  have h6 : c ≠ '\x0c' := by rintro rfl; exact absurd h (by decide)
  simp [h1, h2, h3, h4, h5, h6]

theorem comma_false_of_isDigit {c : Char} (h : c.isDigit = true) :
    (decide (c = ',') : Bool) = false := by
  cases hd : (decide (c = ',') : Bool)
  · rfl
  · have hc : c = ',' := of_decide_eq_true hd
    subst hc
    exact absurd h (by decide)

/-! ## Lemmas: substring containment -/

theorem startsWithList_iff (pat : List Char) :
    ∀ (l : List Char), startsWithList pat l = true ↔ ∃ t, l = pat ++ t := by
  induction pat with
  | nil => intro l; simp [startsWithList]
  | cons p ps ih =>
    intro l
    cases l with
    | nil => simp [startsWithList]
    | cons c cs =>
      rw [startsWithList]
      simp only [Bool.and_eq_true, decide_eq_true_eq, ih cs]
      constructor
      · rintro ⟨rfl, t, rfl⟩; exact ⟨t, rfl⟩
      · rintro ⟨t, ht⟩
        obtain ⟨h1, h2⟩ := List.cons.injEq .. ▸ ht
        exact ⟨h1.symm, t, h2⟩

theorem containsSub_iff (pat : List Char) :
    ∀ (l : List Char), containsSub pat l = true ↔ ∃ a b, l = a ++ pat ++ b := by
  intro l
  induction l with
  | nil =>
    rw [containsSub]
    simp only [decide_eq_true_eq]
    constructor
    · rintro rfl; exact ⟨[], [], rfl⟩
    · rintro ⟨a, b, h⟩
      rcases List.append_eq_nil.mp (List.append_eq_nil.mp h.symm).1 with ⟨_, h2⟩
      exact h2
  | cons c cs ih =>
    rw [containsSub]
    simp only [Bool.or_eq_true, startsWithList_iff, ih]
    constructor
    · rintro (⟨t, ht⟩ | ⟨a, b, h⟩)
      · exact ⟨[], t, by simp [ht]⟩
      · exact ⟨c :: a, b, by simp [h]⟩
    · rintro ⟨a, b, h⟩
      cases a with
      | nil => exact Or.inl ⟨b, by simpa using h⟩
      | cons a0 as =>
        right
        obtain ⟨_, h2⟩ := List.cons.injEq .. ▸ h
        exact ⟨as, b, h2⟩

/-- A nonempty pattern never occurs in the empty list. -/
theorem containsSub_nil_of_ne {pat : List Char} (h : pat ≠ []) :
    containsSub pat [] = false := by
  rw [containsSub]
  simpa using h

/-! ## Lemmas: time parsing bounds and rendering -/

theorem parseNum2_bound {lo hi v : Nat} {l rest : List Char}
    (h : parseNum2 lo hi l = some (v, rest)) : lo ≤ v ∧ v ≤ hi := by
  unfold parseNum2 at h
  dsimp only at h
  split at h
  · split at h
    · rename_i hb
      simp at h
      obtain ⟨hv, _⟩ := h
      subst hv
      simpa using hb
    · simp at h
  · simp at h

theorem to24_lt (h12 : Nat) (pm : Bool) : to24 h12 pm < 24 := by
  unfold to24
  split <;> omega

theorem strptimeIMSp_bound {l : List Char} {h m : Nat}
    (hp : strptimeIMSp l = some (h, m)) : h < 24 ∧ m < 60 := by
  unfold strptimeIMSp at hp
  split at hp
  · simp at hp
  · rename_i h12 r1 heq1
    split at hp
    · simp at hp
    · split at hp
      · simp at hp
      · rename_i m2 r3 heq3
        split at hp
        · simp at hp
        · split at hp
          · rename_i pm heq5
            simp at hp
            obtain ⟨e1, e2⟩ := hp
            subst e1; subst e2
            exact ⟨to24_lt .., by have := parseNum2_bound heq3; omega⟩
          · simp at hp

theorem strptimeHM_bound {l : List Char} {h m : Nat}
    (hp : strptimeHM l = some (h, m)) : h < 24 ∧ m < 60 := by
  unfold strptimeHM at hp
  split at hp
  · simp at hp
  · rename_i h1 r1 heq1
    split at hp
    · simp at hp
    · split at hp
      · rename_i m2 heq3
        simp at hp
        obtain ⟨e1, e2⟩ := hp
        subst e1; subst e2
        have b1 := parseNum2_bound heq1
        have b3 := parseNum2_bound heq3
        omega
      · simp at hp

theorem strptimeIp_bound {l : List Char} {h m : Nat}
    (hp : strptimeIp l = some (h, m)) : h < 24 ∧ m < 60 := by
  unfold strptimeIp at hp
  split at hp
  · simp at hp
  · split at hp
    · rename_i h12 r1 heq1 pm heq2
      simp at hp
      obtain ⟨e1, e2⟩ := hp
      subst e1; subst e2
      exact ⟨to24_lt .., by omega⟩
    · simp at hp

theorem strptimeIMp_bound {l : List Char} {h m : Nat}
    (hp : strptimeIMp l = some (h, m)) : h < 24 ∧ m < 60 := by
  unfold strptimeIMp at hp
  split at hp
  · simp at hp
  · rename_i h12 r1 heq1
    split at hp
    · simp at hp
    · split at hp
      · simp at hp
      · rename_i m2 r3 heq3
        split at hp
        · rename_i pm heq4
          simp at hp
          obtain ⟨e1, e2⟩ := hp
          subst e1; subst e2
          exact ⟨to24_lt .., by have := parseNum2_bound heq3; omega⟩
        · simp at hp

theorem tryFormats_bound {s : String} {h m : Nat}
    (hp : tryFormats s = some (h, m)) : h < 24 ∧ m < 60 := by
  unfold tryFormats at hp
  split at hp
  · rename_i heq
    exact strptimeIMSp_bound (heq.trans hp)
  · split at hp
    · rename_i heq
      exact strptimeHM_bound (heq.trans hp)
    · split at hp
      · rename_i heq
        exact strptimeIp_bound (heq.trans hp)
      · exact strptimeIMp_bound hp

/-- Stripping the leading zeros of a `%I`-padded hour in `1..12` leaves the
plain decimal digits. -/
theorem pad2_lstrip (k : Nat) (h1 : 1 ≤ k) (h2 : k ≤ 12) :
    (pad2 k).data.dropWhile (fun c => c = '0') = (toString k).data ∧
      (toString k).data ≠ [] := by
  interval_cases k <;> exact ⟨by decide, by decide⟩

/-- `lstrip('0')` applied to `strftime("%I:%M %p")` output is exactly the
no-leading-zero 12-hour rendering. -/
theorem lstrip_strftime (h m : Nat) (hh : h < 24) :
    pyLstripZeros (strftimeIMSp h m) = render12 h m := by
  have h1 : 1 ≤ (h + 11) % 12 + 1 := by omega
  have h2 : (h + 11) % 12 + 1 ≤ 12 := by omega
  obtain ⟨e1, e2⟩ := pad2_lstrip ((h + 11) % 12 + 1) h1 h2
  apply String.ext
  unfold pyLstripZeros strftimeIMSp render12
  simp only [String.data_append, List.append_assoc]
  rw [List.dropWhile_append, e1]
  cases htos : (toString ((h + 11) % 12 + 1)).data with
  | nil => exact absurd htos e2
  | cons d ds => simp

/-- On a successfully parsed time, `calculate_end_time` renders start and
start+2h in 12-hour form with no leading zero. -/
theorem calculate_end_time_parsed {s : String} {h m : Nat}
    (hp : tryFormats (pyStrip s) = some (h, m)) :
    calculate_end_time (some s) =
      render12 h m ++ " - " ++ render12 ((h + 2) % 24) m := by
  obtain ⟨hh, _⟩ := tryFormats_bound hp
  unfold calculate_end_time calc_end_time_body
  dsimp only
  rw [hp]
  dsimp only
  rw [lstrip_strftime h m hh, lstrip_strftime ((h + 2) % 24) m (by omega)]

/-- On a time that no format parses, `calculate_end_time` is the passthrough
duplication of the original input. -/
theorem calculate_end_time_unparsed {s : String}
    (hp : tryFormats (pyStrip s) = none) :
    calculate_end_time (some s) = s ++ " - " ++ s := by
  unfold calculate_end_time calc_end_time_body
  dsimp only
  rw [hp]

/-! ## Lemmas: pagination -/

theorem chunks4_nil : chunks4 [] = [] := by rw [chunks4]

theorem chunks4_cons (r : Booking) (rest : List Booking) :
    chunks4 (r :: rest) = (r :: rest).take 4 :: chunks4 ((r :: rest).drop 4) := by
  rw [chunks4]

theorem chunks4_eq_nil_iff (l : List Booking) : chunks4 l = [] ↔ l = [] := by
  cases l with
  | nil => simp [chunks4_nil]
  | cons r rest => rw [chunks4_cons]; simp

theorem chunks4_flatten (l : List Booking) : (chunks4 l).flatten = l := by
  induction l using chunks4.induct with
  | case1 => rw [chunks4_nil]; rfl
  | case2 r rest ih =>
    rw [chunks4_cons]
    simp only [List.flatten_cons, ih, List.take_append_drop]

theorem chunks4_length (l : List Booking) :
    (chunks4 l).length = (l.length + 3) / 4 := by
  induction l using chunks4.induct with
  | case1 => rw [chunks4_nil]; rfl
  | case2 r rest ih =>
    rw [chunks4_cons]
    simp only [List.length_cons, ih, List.length_drop]
    omega

theorem chunks4_mem (l : List Booking) :
    ∀ c ∈ chunks4 l, c ≠ [] ∧ c.length ≤ 4 := by
  induction l using chunks4.induct with
  | case1 => rw [chunks4_nil]; intro c hc; simp at hc
  | case2 r rest ih =>
    rw [chunks4_cons]
    intro c hc
    rcases List.mem_cons.mp hc with hc | hc
    · subst hc
      constructor
      · simp
      · simpa using List.length_take_le 4 (r :: rest)
    · exact ih c hc

theorem chunks4_dropLast (l : List Booking) :
    ∀ c ∈ (chunks4 l).dropLast, c.length = 4 := by
  induction l using chunks4.induct with
  | case1 => rw [chunks4_nil]; intro c hc; simp at hc
  | case2 r rest ih =>
    rw [chunks4_cons]
    intro c hc
    cases hrec : chunks4 ((r :: rest).drop 4) with
    | nil => rw [hrec] at hc; simp at hc
    | cons c2 cs =>
      rw [hrec] at hc
      rw [List.dropLast_cons₂] at hc
      rcases List.mem_cons.mp hc with hc | hc
      · subst hc
        have hne : (r :: rest).drop 4 ≠ [] := by
          intro hd
          rw [hd, chunks4_nil] at hrec
          exact absurd hrec (by simp)
        have h4 : 4 ≤ (r :: rest).length := by
          by_contra hlt
          exact hne (List.drop_eq_nil_of_le (by omega))
        simp only [List.length_take, List.length_cons] at h4 ⊢
        omega
      · exact ih c (by rw [hrec]; exact hc)

theorem generate_placecards_eq (l : List Booking) :
    generate_placecards l =
      List.intersperse StoryItem.pageBreak
        ((chunks4 l).map (fun c => StoryItem.page (build_page c))) := by
  induction l using chunks4.induct with
  | case1 => rw [generate_placecards, chunks4_nil]; rfl
  | case2 r rest ih =>
    rw [generate_placecards, chunks4_cons]
    cases hrem : (r :: rest).drop 4 with
    | nil =>
      rw [chunks4_nil]
      rfl
    | cons d ds =>
      rw [hrem] at ih
      cases hch : chunks4 (d :: ds) with
      | nil => exact absurd ((chunks4_eq_nil_iff _).mp hch) (by simp)
      | cons e es =>
        rw [hch] at ih
        dsimp only
        simp only [List.map_cons, List.intersperse_cons₂]
        rw [ih, List.map_cons]

theorem pagesOf_intersperse (ps : List Page2x2) :
    pagesOf (List.intersperse StoryItem.pageBreak (ps.map StoryItem.page)) = ps := by
  induction ps with
  | nil => rfl
  | cons p ps ih =>
    cases ps with
    | nil => rfl
    | cons q qs =>
      show p :: pagesOf (List.intersperse StoryItem.pageBreak
        ((q :: qs).map StoryItem.page)) = p :: q :: qs
      rw [ih]

theorem pagesOf_generate (l : List Booking) :
    pagesOf (generate_placecards l) = (chunks4 l).map build_page := by
  rw [generate_placecards_eq]
  have h : (chunks4 l).map (fun c => StoryItem.page (build_page c)) =
      ((chunks4 l).map build_page).map StoryItem.page := by
    rw [List.map_map]; rfl
  rw [h, pagesOf_intersperse]

theorem filterMap_id_replicate_none (n : Nat) :
    (List.replicate n (none : Option Placecard)).filterMap id = [] := by
  induction n with
  | zero => rfl
  | succ k ih => simp [List.replicate_succ, List.filterMap_cons, ih]

/-- The 2x2 grid of a page for a chunk, row-major: the chunk's cards followed
by blank cells up to four. -/
theorem build_page_cells (c : List Booking) (hc : c.length ≤ 4) :
    (build_page c).row1 ++ (build_page c).row2 =
      c.map (fun r => some (create_single_card r)) ++
        List.replicate (4 - c.length) none := by
  match c with
  | [] => rfl
  | [a] => rfl
  | [a, b] => rfl
  | [a, b, d] => rfl
  | [a, b, d, e] => rfl
  | a :: b :: d :: e :: f :: rest => simp at hc

theorem filterMap_id_map_some (c : List Booking) :
    (c.map (fun r => some (create_single_card r))).filterMap id =
      c.map create_single_card := by
  induction c with
  | nil => rfl
  | cons r rs ih => simp [List.filterMap_cons, ih]

theorem cardsOf_build_page (c : List Booking) (hc : c.length ≤ 4) :
    cardsOf (build_page c) = c.map create_single_card := by
  unfold cardsOf
  rw [build_page_cells c hc, List.filterMap_append, filterMap_id_replicate_none,
    List.append_nil, filterMap_id_map_some]

/-! ## Lemmas: name capitalization -/

/-- The particle special-case of the source is a no-op: both branches
capitalize the word identically. -/
theorem capWordBranch_eq (w : List Char) : capWordBranch w = pyCapitalize w := by
  unfold capWordBranch
  split <;> rfl

theorem pyCapitalize_ne_nil {w : List Char} (h : w ≠ []) : pyCapitalize w ≠ [] := by
  cases w with
  | nil => exact absurd rfl h
  | cons c cs => simp [pyCapitalize]

theorem pyLowerList_pyCapitalize (w : List Char) :
    pyLowerList (pyCapitalize w) = pyLowerList w := by
  cases w with
  | nil => rfl
  | cons c cs =>
    show asciiLower (asciiUpper c) :: (cs.map asciiLower).map asciiLower =
      asciiLower c :: cs.map asciiLower
    rw [asciiLower_asciiUpper, List.map_map]
    congr 1
    exact List.map_congr_left (fun x _ => asciiLower_idem x)

theorem pyCapitalize_idem (w : List Char) :
    pyCapitalize (pyCapitalize w) = pyCapitalize w := by
  cases w with
  | nil => rfl
  | cons c cs =>
    show asciiUpper (asciiUpper c) :: (cs.map asciiLower).map asciiLower =
      asciiUpper c :: cs.map asciiLower
    rw [asciiUpper_idem, List.map_map]
    congr 1
    exact List.map_congr_left (fun x _ => asciiLower_idem x)

theorem pyCapitalize_ws_free {w : List Char} (h : ∀ c ∈ w, isPyWs c = false) :
    ∀ c ∈ pyCapitalize w, isPyWs c = false := by
  cases w with
  | nil => intro c hc; simp [pyCapitalize] at hc
  | cons d ds =>
    intro c hc
    rw [pyCapitalize] at hc
    rcases List.mem_cons.mp hc with hc | hc
    · subst hc
      rw [isPyWs_asciiUpper]
      exact h d (List.mem_cons_self ..)
    · obtain ⟨e, he, rfl⟩ := List.mem_map.mp hc
      rw [isPyWs_asciiLower]
      exact h e (List.mem_cons_of_mem _ he)

theorem pySplitWs_mem_ne_nil {l w : List Char} (h : w ∈ pySplitWs l) : w ≠ [] := by
  have := (List.mem_filter.mp h).2
  simpa using this

theorem pySplitWs_mem_ws_free {l w : List Char} (h : w ∈ pySplitWs l) :
    ∀ c ∈ w, isPyWs c = false :=
  splitOnPred_mem_chars isPyWs l w (List.mem_filter.mp h).1

theorem pySplitWs_filter (l : List Char) :
    (pySplitWs l).filter (fun w => w ≠ []) = pySplitWs l :=
  List.filter_eq_self.mpr (fun w hw => by simpa using pySplitWs_mem_ne_nil hw)

theorem pySplitWs_ne_nil (l : List Char) (hl : l ≠ [])
    (hhead : ∀ c, l.head? = some c → isPyWs c = false) : pySplitWs l ≠ [] := by
  intro hnil
  have hall : ∀ w ∈ splitOnPred isPyWs l, w = [] := by
    intro w hw
    by_contra hwne
    have hmem : w ∈ pySplitWs l := List.mem_filter.mpr ⟨hw, by simpa using hwne⟩
    rw [hnil] at hmem
    simp at hmem
  have hsep := all_sep_of_splitOnPred_all_nil isPyWs l hall
  cases l with
  | nil => exact hl rfl
  | cons c cs =>
    have := hsep c (List.mem_cons_self ..)
    rw [hhead c rfl] at this
    exact absurd this (by simp)

/-- In the generic branch, `capitalize_customer_name` joins the title-cased
whitespace-split words of the stripped input. -/
theorem capitalize_words (s : String) (hne : s ≠ "") (hwk : pyLowerList (trimList s.data) ≠ "walk in".data) :
    capitalize_customer_name (some s) =
      ⟨joinWith [' '] ((pySplitWs (trimList s.data)).map pyCapitalize)⟩ := by
  unfold capitalize_customer_name
  dsimp only
  rw [if_neg hne, if_neg hwk]
  congr 1
  rw [pySplitWs_filter]
  exact congrArg (joinWith [' ']) (List.map_congr_left (fun w _ => capWordBranch_eq w))

/-- A join of title-cased, whitespace-free, nonempty words is a fixed point
of `capitalize_customer_name`. -/
theorem capitalize_fixed (parts : List (List Char)) (hne : parts ≠ [])
    (h1 : ∀ w ∈ parts, w ≠ []) (h2 : ∀ w ∈ parts, ∀ c ∈ w, isPyWs c = false) :
    capitalize_customer_name (some ⟨joinWith [' '] (parts.map pyCapitalize)⟩) =
      ⟨joinWith [' '] (parts.map pyCapitalize)⟩ := by
  obtain ⟨w1, parts2, rfl⟩ : ∃ w ps, parts = w :: ps := by
    cases parts with
    | nil => exact absurd rfl hne
    | cons w ps => exact ⟨w, ps, rfl⟩
  set capWords := (w1 :: parts2).map pyCapitalize with hcw
  have hcw_ne : ∀ v ∈ capWords, v ≠ [] := by
    intro v hv
    obtain ⟨w, hw, rfl⟩ := List.mem_map.mp hv
    exact pyCapitalize_ne_nil (h1 w hw)
  have hcw_free : ∀ v ∈ capWords, ∀ c ∈ v, isPyWs c = false := by
    intro v hv
    obtain ⟨w, hw, rfl⟩ := List.mem_map.mp hv
    exact pyCapitalize_ws_free (h2 w hw)
  set t := joinWith [' '] capWords with htdef
  have htne : t ≠ [] := by
    rw [htdef, hcw, List.map_cons]
    exact joinWith_ne_nil _ _ _ (pyCapitalize_ne_nil (h1 w1 (List.mem_cons_self ..)))
  have hshead : ∀ c, t.head? = some c → isPyWs c = false := by
    intro c hc
    rw [htdef, hcw, List.map_cons,
      joinWith_head? _ _ _ (pyCapitalize_ne_nil (h1 w1 (List.mem_cons_self ..)))] at hc
    exact hcw_free (pyCapitalize w1) (by rw [hcw]; simp) c (List.mem_of_mem_head? hc)
  have hslast : ∀ c, t.getLast? = some c → isPyWs c = false := by
    intro c hc
    obtain ⟨v, hv, hlast⟩ := joinWith_getLast? [' '] capWords (by rw [hcw]; simp) hcw_ne
    rw [htdef, hlast] at hc
    have : c ∈ v := by
      rw [← List.head?_reverse] at hc
      exact List.mem_reverse.mp (List.mem_of_mem_head? hc)
    exact hcw_free v hv c this
  have htrim : trimList t = t := trimList_eq_self t hshead hslast
  have hsne : (⟨t⟩ : String) ≠ "" := by
    intro h
    exact htne (congrArg String.data h)
  have hsplit : splitOnPred isPyWs t = capWords := by
    rw [htdef]
    exact splitOnPred_joinWith isPyWs ' ' (by decide) capWords (by rw [hcw]; simp) hcw_free
  by_cases hwk : pyLowerList t = "walk in".data
  · -- The joined words can only lower-case to "walk in" when they are
    -- literally ["Walk", "In"]; then the walk-in branch returns the input.
    have hlow : (w1 :: parts2).map pyLowerList = ["walk".data, "in".data] := by
      have hdist : pyLowerList t = joinWith [' '] (capWords.map pyLowerList) := by
        rw [htdef]
        show (joinWith [' '] capWords).map asciiLower = _
        rw [map_joinWith]
        rfl
      have hrhs : ("walk in".data : List Char) = joinWith [' '] ["walk".data, "in".data] := by decide
      have hjoin : joinWith [' '] (capWords.map pyLowerList) =
          joinWith [' '] ["walk".data, "in".data] := by
        rw [← hdist, hwk, hrhs]
      have e1 := splitOnPred_joinWith isPyWs ' ' (by decide) (capWords.map pyLowerList)
        (by rw [hcw]; simp)
        (by
          intro w hw c hc
          obtain ⟨v, hv, rfl⟩ := List.mem_map.mp hw
          obtain ⟨d, hd, rfl⟩ := List.mem_map.mp hc
          rw [isPyWs_asciiLower]
          exact hcw_free v hv d hd)
      have e2 := splitOnPred_joinWith isPyWs ' ' (by decide) ["walk".data, "in".data]
        (by simp) (by decide)
      have hmap : capWords.map pyLowerList = ["walk".data, "in".data] := by
        rw [← e1, ← e2, hjoin]
      rw [hcw, List.map_map] at hmap
      have hcomp : (w1 :: parts2).map (pyLowerList ∘ pyCapitalize) =
          (w1 :: parts2).map pyLowerList :=
        List.map_congr_left (fun w _ => pyLowerList_pyCapitalize w)
      rw [← hcomp, hmap]
    -- Destructure: exactly two words, lowering to "walk" and "in".
    obtain ⟨hp2, hl1, hl2⟩ : parts2.length = 1 ∧ pyLowerList w1 = "walk".data ∧
        ∀ w ∈ parts2, pyLowerList w = "in".data := by
      rcases parts2 with _ | ⟨w2, rest⟩
      · simp at hlow
      · rcases rest with _ | ⟨w3, rest2⟩
        · simp at hlow
          refine ⟨rfl, hlow.1, ?_⟩
          intro w hw
          rcases List.mem_cons.mp hw with rfl | hw
          · exact hlow.2
          · simp at hw
        · simp at hlow
    obtain ⟨w2, rfl⟩ : ∃ w2, parts2 = [w2] := by
      rcases parts2 with _ | ⟨w2, rest⟩
      · simp at hp2
      · rcases rest with _ | _
        · exact ⟨w2, rfl⟩
        · simp at hp2
    have hcap1 : pyCapitalize w1 = "Walk".data := by
      rcases w1 with _ | ⟨c, cs⟩
      · exact absurd rfl (h1 [] (List.mem_cons_self ..))
      · unfold pyLowerList at hl1
        rw [List.map_cons] at hl1
        have hc1 : asciiLower c = 'w' := by
          have := List.cons.injEq .. ▸ hl1
          exact this.1
        have hcs : cs.map asciiLower = ['a', 'l', 'k'] := by
          have := List.cons.injEq .. ▸ hl1
          exact this.2
        rcases eq_of_asciiLower_eq hc1 with rfl | rfl
        · rw [pyCapitalize, hcs]; rfl
        · rw [pyCapitalize, hcs]; rfl
    have hcap2 : pyCapitalize w2 = "In".data := by
      have hl2w := hl2 w2 (List.mem_cons_self ..)
      rcases w2 with _ | ⟨c, cs⟩
      · exact absurd rfl (h1 [] (by simp))
      · unfold pyLowerList at hl2w
        rw [List.map_cons] at hl2w
        have hc1 : asciiLower c = 'i' := by
          have := List.cons.injEq .. ▸ hl2w
          exact this.1
        have hcs : cs.map asciiLower = ['n'] := by
          have := List.cons.injEq .. ▸ hl2w
          exact this.2
        rcases eq_of_asciiLower_eq hc1 with rfl | rfl
        · rw [pyCapitalize, hcs]; rfl
        · rw [pyCapitalize, hcs]; rfl
    have htval : t = "Walk In".data := by
      rw [htdef, hcw, List.map_cons, List.map_cons, List.map_nil, hcap1, hcap2]
      decide
    unfold capitalize_customer_name
    dsimp only
    rw [if_neg hsne, htrim, if_pos hwk]
    exact String.ext htval.symm
  · -- Generic branch: re-splitting returns the same words, re-capitalizing
    -- them is the identity.
    have hwords : pySplitWs t = capWords := by
      unfold pySplitWs
      rw [hsplit]
      exact List.filter_eq_self.mpr (fun v hv => by simpa using hcw_ne v hv)
    unfold capitalize_customer_name
    dsimp only
    rw [if_neg hsne, htrim, if_neg hwk, hwords]
    congr 1
    rw [List.filter_eq_self.mpr (fun v hv => by simpa using hcw_ne v hv)]
    rw [List.map_congr_left (fun v _ => capWordBranch_eq v)]
    rw [hcw, List.map_map]
    exact congrArg (joinWith [' ']) (List.map_congr_left (fun w _ => pyCapitalize_idem w))

/-- Idempotence of `capitalize_customer_name` on every input that is empty or
has a nonempty strip (every input except the nonempty all-whitespace ones). -/
theorem capitalize_idem (s : String) (hgood : trimList s.data = [] → s = "") :
    capitalize_customer_name (some (capitalize_customer_name (some s))) =
      capitalize_customer_name (some s) := by
  by_cases hs : s = ""
  · subst hs
    decide
  · have ht : trimList s.data ≠ [] := fun h => hs (hgood h)
    by_cases hwk : pyLowerList (trimList s.data) = "walk in".data
    · have hval : capitalize_customer_name (some s) = "Walk In" := by
        unfold capitalize_customer_name
        dsimp only
        rw [if_neg hs, if_pos hwk]
      rw [hval]
      decide
    · rw [capitalize_words s hs hwk]
      have hhead : ∀ c, (trimList s.data).head? = some c → isPyWs c = false :=
        fun c hc => trimList_head s.data c hc
      exact capitalize_fixed (pySplitWs (trimList s.data))
        (pySplitWs_ne_nil (trimList s.data) ht hhead)
        (fun w hw => pySplitWs_mem_ne_nil hw)
        (fun w hw => pySplitWs_mem_ws_free hw)

/-! ## Lemmas: table-number extraction -/

theorem filterMap_eq_self_of {f : List Char → Option (List Char)}
    {l : List (List Char)} (h : ∀ x ∈ l, f x = some x) : l.filterMap f = l := by
  induction l with
  | nil => rfl
  | cons x xs ih =>
    rw [List.filterMap_cons, h x (List.mem_cons_self ..),
      ih (fun y hy => h y (List.mem_cons_of_mem _ hy))]

/-- Every output of `extract_table_numbers` on a present cell is either
`"TBD"` or a comma-join of nonempty all-digit runs. -/
theorem extract_cases (s : String) :
    extract_table_numbers (some s) = "TBD" ∨
      ∃ cleaned : List (List Char), cleaned ≠ [] ∧
        (∀ r ∈ cleaned, r ≠ [] ∧ ∀ c ∈ r, c.isDigit = true) ∧
        extract_table_numbers (some s) = ⟨joinWith [','] cleaned⟩ := by
  unfold extract_table_numbers
  dsimp only
  by_cases hs : s = ""
  · left; rw [if_pos hs]
  · rw [if_neg hs]
    set cleaned := (splitOnPred (fun c => c = ',') s.data).filterMap
      (fun t => firstDigitRun (trimList t)) with hcl
    by_cases hc : cleaned = []
    · left
      rw [if_neg (by simpa using hc)]
    · right
      refine ⟨cleaned, hc, ?_, by rw [if_pos (by simpa using hc)]⟩
      intro r hr
      rw [hcl] at hr
      obtain ⟨t, _, hfd⟩ := List.mem_filterMap.mp hr
      exact firstDigitRun_spec (trimList t) r hfd

/-- A comma-join of nonempty all-digit runs is a fixed point of
`extract_table_numbers`. -/
theorem extract_fixed (cleaned : List (List Char)) (hne : cleaned ≠ [])
    (hfacts : ∀ r ∈ cleaned, r ≠ [] ∧ ∀ c ∈ r, c.isDigit = true) :
    extract_table_numbers (some ⟨joinWith [','] cleaned⟩) =
      ⟨joinWith [','] cleaned⟩ := by
  obtain ⟨r1, rest, rfl⟩ : ∃ r rs, cleaned = r :: rs := by
    cases cleaned with
    | nil => exact absurd rfl hne
    | cons r rs => exact ⟨r, rs, rfl⟩
  have hjne : joinWith [','] (r1 :: rest) ≠ [] :=
    joinWith_ne_nil _ _ _ (hfacts r1 (List.mem_cons_self ..)).1
  have hsne : (⟨joinWith [','] (r1 :: rest)⟩ : String) ≠ "" :=
    fun h => hjne (congrArg String.data h)
  unfold extract_table_numbers
  dsimp only
  rw [if_neg hsne]
  have hsplit : splitOnPred (fun c => c = ',') (String.data ⟨joinWith [','] (r1 :: rest)⟩) =
      r1 :: rest := by
    refine splitOnPred_joinWith (fun c => c = ',') ',' (by decide) (r1 :: rest) (by simp) ?_
    intro w hw c hc
    exact comma_false_of_isDigit ((hfacts w hw).2 c hc)
  rw [hsplit]
  have hfm : (r1 :: rest).filterMap (fun t => firstDigitRun (trimList t)) = r1 :: rest := by
    refine filterMap_eq_self_of (fun r hr => ?_)
    obtain ⟨hrne, hrdig⟩ := hfacts r hr
    rw [trimList_eq_self_of_all r (fun c hc => isPyWs_false_of_isDigit (hrdig c hc))]
    exact firstDigitRun_all_digits r hrne hrdig
  rw [hfm, if_pos (by simp)]

/-- `extract_table_numbers` is idempotent on every string input. -/
theorem extract_idem (s : String) :
    extract_table_numbers (some (extract_table_numbers (some s))) =
      extract_table_numbers (some s) := by
  rcases extract_cases s with h | ⟨cleaned, hne, hfacts, h⟩
  · rw [h]; decide
  · rw [h]
    exact extract_fixed cleaned hne hfacts

/-- Characters of a join are separator characters or characters of a part. -/
theorem mem_joinWith (sep : List Char) :
    ∀ (parts : List (List Char)) (c : Char), c ∈ joinWith sep parts →
      c ∈ sep ∨ ∃ w ∈ parts, c ∈ w := by
  intro parts
  induction parts with
  | nil => intro c hc; rw [joinWith] at hc; simp at hc
  | cons w ws ih =>
    intro c hc
    cases ws with
    | nil =>
      rw [joinWith] at hc
      exact Or.inr ⟨w, List.mem_cons_self .., hc⟩
    | cons w2 ws2 =>
      rw [joinWith] at hc
      rcases List.mem_append.mp hc with hc | hc
      · rcases List.mem_append.mp hc with hc | hc
        · exact Or.inr ⟨w, List.mem_cons_self .., hc⟩
        · exact Or.inl hc
      · rcases ih c hc with hc | ⟨v, hv, hcv⟩
        · exact Or.inl hc
        · exact Or.inr ⟨v, List.mem_cons_of_mem _ hv, hcv⟩

end Brewvino

namespace Brewvino

/-- A sample booking used by the concrete witnesses. -/
def sampleBooking : Booking :=
  { service := some "Dinner"
    time := some "7:30 PM"
    people := some "4"
    customer := some "John Smith"
    tables := some "5" }

/-- Claim C3: the time-range normalizer tries the four formats in order on
the trimmed input; on success it returns "start - end" with end two hours
later, both in 12-hour form with no leading zero and an AM/PM suffix; on
failure it returns the duplicated original input; and the four documented
examples hold. -/
theorem claim_c3 :
    (∀ s : String, tryFormats (pyStrip s) = none →
        calculate_end_time (some s) = s ++ " - " ++ s) ∧
    (∀ (s : String) (h m : Nat), tryFormats (pyStrip s) = some (h, m) →
        calculate_end_time (some s) =
          render12 h m ++ " - " ++ render12 ((h + 2) % 24) m) ∧
    calculate_end_time (some "7:30 PM") = "7:30 PM - 9:30 PM" ∧
    calculate_end_time (some "19:30") = "7:30 PM - 9:30 PM" ∧
    calculate_end_time (some "11:15 PM") = "11:15 PM - 1:15 AM" ∧
    calculate_end_time (some "garbage") = "garbage - garbage" :=
  ⟨fun _ h => calculate_end_time_unparsed h,
   fun _ _ _ hp => calculate_end_time_parsed hp,
   by decide, by decide, by decide, by decide⟩

/-- Witness for C3 at concrete inputs: "garbage" fails every format and
passes through; "7:30 PM" parses as 19:30 and renders a 2-hour range. -/
theorem claim_c3_witness :
    calculate_end_time (some "garbage") = "garbage - garbage" ∧
    calculate_end_time (some "7:30 PM") =
      render12 19 30 ++ " - " ++ render12 ((19 + 2) % 24) 30 :=
  ⟨claim_c3.1 "garbage" (by decide),
   claim_c3.2.1 "7:30 PM" 19 30 (by decide)⟩

/-- Claim C4 counterexample: the guard `name == ""` tests the unstripped
input, so a nonempty whitespace-only name produces the empty string, not
the documented `"Guest"` placeholder. -/
theorem claim_c4_counterexample :
    capitalize_customer_name (some " ") ≠ "Guest" ∧
    capitalize_customer_name (some " ") = "" :=
  ⟨by decide, by decide⟩

/-- Claim C4 (amended): a missing or empty input yields "Guest"; a nonempty
whitespace-only input yields the empty string; a trimmed input
case-insensitively equal to "walk in" yields "Walk In"; any other input is
trimmed, split on whitespace, each word title-cased with no special
exception for name particles, and rejoined with single spaces. -/
theorem claim_c4_amended :
    capitalize_customer_name none = "Guest" ∧
    capitalize_customer_name (some "") = "Guest" ∧
    (∀ s : String, s ≠ "" → trimList s.data = [] →
        capitalize_customer_name (some s) = "") ∧
    (∀ s : String, s ≠ "" → pyLowerList (trimList s.data) = "walk in".data →
        capitalize_customer_name (some s) = "Walk In") ∧
    (∀ s : String, s ≠ "" → pyLowerList (trimList s.data) ≠ "walk in".data →
        capitalize_customer_name (some s) =
          ⟨joinWith [' '] ((pySplitWs (trimList s.data)).map pyCapitalize)⟩) ∧
    (∀ w : List Char, capWordBranch w = pyCapitalize w) := by
  refine ⟨rfl, rfl, ?_, ?_, ?_, capWordBranch_eq⟩
  · intro s hs htrim
    rw [capitalize_words s hs (by rw [htrim]; decide), htrim]
    rfl
  · intro s hs hwk
    unfold capitalize_customer_name
    dsimp only
    rw [if_neg hs, if_pos hwk]
  · intro s hs hwk
    exact capitalize_words s hs hwk

/-- Witness for C4 (amended) at a concrete input: a messy mixed-case name is
trimmed, split, title-cased and rejoined. -/
theorem claim_c4_witness :
    capitalize_customer_name (some "  jOhn  smith ") = "John Smith" := by
  have h := claim_c4_amended.2.2.2.2.1 "  jOhn  smith " (by decide) (by decide)
  rw [h]
  decide

/-- Claim C5: table-number extraction returns "TBD" on missing/empty input,
drops segments without digits, joins the first digit run of each segment
with commas, and every output is digits-and-commas or exactly "TBD". -/
theorem claim_c5 :
    extract_table_numbers none = "TBD" ∧
    extract_table_numbers (some "") = "TBD" ∧
    extract_table_numbers (some "5, T12, none") = "5,12" ∧
    extract_table_numbers (some "abc") = "TBD" ∧
    (∀ s : String, extract_table_numbers (some s) = "TBD" ∨
      ((extract_table_numbers (some s)).data ≠ [] ∧
        ∀ c ∈ (extract_table_numbers (some s)).data, c.isDigit = true ∨ c = ',')) ∧
    (∀ s : String,
      (∀ seg ∈ splitOnPred (fun c => c = ',') s.data,
          firstDigitRun (trimList seg) = none) →
      extract_table_numbers (some s) = "TBD") := by
  refine ⟨by decide, by decide, by decide, by decide, ?_, ?_⟩
  · intro s
    rcases extract_cases s with h | ⟨cleaned, hne, hfacts, h⟩
    · exact Or.inl h
    · right
      rw [h]
      obtain ⟨r1, rest, rfl⟩ : ∃ r rs, cleaned = r :: rs := by
        cases cleaned with
        | nil => exact absurd rfl hne
        | cons r rs => exact ⟨r, rs, rfl⟩
      constructor
      · exact joinWith_ne_nil _ _ _ (hfacts r1 (List.mem_cons_self ..)).1
      · intro c hc
        rcases mem_joinWith [','] (r1 :: rest) c hc with hc | ⟨w, hw, hcw⟩
        · right; simpa using hc
        · left; exact (hfacts w hw).2 c hcw
  · intro s hnone
    unfold extract_table_numbers
    dsimp only
    by_cases hs : s = ""
    · rw [if_pos hs]
    · rw [if_neg hs]
      have hnil : (splitOnPred (fun c => c = ',') s.data).filterMap
          (fun t => firstDigitRun (trimList t)) = [] := by
        rw [List.filterMap_eq_nil_iff]
        exact hnone
      rw [hnil, if_neg (by simp)]

/-- Witness for C5 at a concrete input: an all-letter table spec has no digit
in any segment and degrades to "TBD". -/
theorem claim_c5_witness :
    extract_table_numbers (some "table five, patio") = "TBD" :=
  claim_c5.2.2.2.2.2 "table five, patio" (by decide)

/-- Claim C1: with any required column missing, the run halts at once with an
error naming exactly the missing required columns (in required order), the
structure validation fails, and no document is ever generated. -/
theorem claim_c1 (csv : Csv) (opt : FilterOption)
    (h : missing_columns csv.cols ≠ []) :
    runMain csv opt = MainOutcome.csvReadError (missing_columns csv.cols) ∧
    validate_csv_structure csv.cols = false ∧
    (∀ c, c ∈ missing_columns csv.cols ↔ c ∈ required_columns ∧ c ∉ csv.cols) ∧
    ∀ story fn, runMain csv opt ≠ MainOutcome.generated story fn := by
  have h1 : runMain csv opt = MainOutcome.csvReadError (missing_columns csv.cols) := by
    unfold runMain
    rw [if_pos h]
  refine ⟨h1, ?_, ?_, ?_⟩
  · unfold validate_csv_structure
    exact decide_eq_false h
  · intro c
    unfold missing_columns
    rw [List.mem_filter]
    simp [List.elem_iff]
  · intro story fn hc
    rw [h1] at hc
    simp at hc

/-- A CSV whose header lacks three of the required columns. -/
def badCsv : Csv := { cols := ["Time", "Customer", "Extra"], rows := [] }

/-- Witness for C1: a concrete upload missing three required columns halts
with exactly those three names. -/
theorem claim_c1_witness :
    runMain badCsv FilterOption.all =
      MainOutcome.csvReadError ["Service or Event", "Number of People", "Table(s)"] := by
  have h := (claim_c1 badCsv FilterOption.all (by decide)).1
  rw [h]
  decide

/-- Claim C2: pagination of N records yields ceil(N/4) pages; the story is
the chunk pages separated by page breaks (none after the last); the cards of
the pages, flattened, are the records' cards in input order; each chunk's
2x2 grid is filled row-major with blank cells beyond the chunk; every page
except possibly the last holds exactly 4 cards. -/
theorem claim_c2 (l : List Booking) :
    (pagesOf (generate_placecards l)).length = (l.length + 3) / 4 ∧
    generate_placecards l =
      List.intersperse StoryItem.pageBreak
        ((chunks4 l).map (fun c => StoryItem.page (build_page c))) ∧
    ((pagesOf (generate_placecards l)).map cardsOf).flatten =
      l.map create_single_card ∧
    (chunks4 l).flatten = l ∧
    (∀ c ∈ chunks4 l, c ≠ [] ∧ c.length ≤ 4) ∧
    (∀ c ∈ chunks4 l,
      (build_page c).row1 ++ (build_page c).row2 =
        c.map (fun r => some (create_single_card r)) ++
          List.replicate (4 - c.length) none) ∧
    ∀ p ∈ (pagesOf (generate_placecards l)).dropLast, (cardsOf p).length = 4 := by
  refine ⟨?_, generate_placecards_eq l, ?_, chunks4_flatten l, chunks4_mem l, ?_, ?_⟩
  · rw [pagesOf_generate, List.length_map, chunks4_length]
  · rw [pagesOf_generate, List.map_map]
    have e : (chunks4 l).map (cardsOf ∘ build_page) =
        (chunks4 l).map (List.map create_single_card) :=
      List.map_congr_left (fun c hc => cardsOf_build_page c (chunks4_mem l c hc).2)
    rw [e, ← List.map_flatten, chunks4_flatten]
  · intro c hc
    exact build_page_cells c (chunks4_mem l c hc).2
  · intro p hp
    rw [pagesOf_generate, ← List.map_dropLast] at hp
    obtain ⟨c, hc, rfl⟩ := List.mem_map.mp hp
    have hlen := chunks4_dropLast l c hc
    have hmem : c ∈ chunks4 l := (List.dropLast_sublist _).subset hc
    rw [cardsOf_build_page c (chunks4_mem l c hmem).2, List.length_map, hlen]

/-- Five identical sample bookings, spanning two pages. -/
def fiveBookings : List Booking :=
  [sampleBooking, sampleBooking, sampleBooking, sampleBooking, sampleBooking]

/-- Witness for C2 at a concrete input: five records yield two pages, and the
one-record chunk fills one cell and three blanks. -/
theorem claim_c2_witness :
    (pagesOf (generate_placecards fiveBookings)).length = 2 ∧
    (build_page [sampleBooking]).row1 ++ (build_page [sampleBooking]).row2 =
      [sampleBooking].map (fun r => some (create_single_card r)) ++
        List.replicate (4 - [sampleBooking].length) none := by
  constructor
  · rw [(claim_c2 fiveBookings).1]
    rfl
  · have hch : chunks4 fiveBookings =
        [[sampleBooking, sampleBooking, sampleBooking, sampleBooking], [sampleBooking]] := by
      simp [fiveBookings, chunks4_cons, chunks4_nil]
    exact (claim_c2 fiveBookings).2.2.2.2.2.1 [sampleBooking] (by rw [hch]; simp)

/-- Claim C6: filtering keeps exactly the records whose lower-cased service
field contains the (lower-case) keyword as a substring, as a subsequence in
original order, and never keeps a record with a missing or empty service
field. -/
theorem claim_c6 (recs : List Booking) (kw : String) (hk : kw ≠ "") :
    List.Sublist (filter_bookings recs kw) recs ∧
    (∀ r, r ∈ filter_bookings recs kw ↔
      r ∈ recs ∧ ∃ s a b, r.service = some s ∧
        pyLowerList s.data = a ++ kw.data ++ b) ∧
    ∀ r ∈ filter_bookings recs kw, r.service ≠ none ∧ r.service ≠ some "" := by
  have hmatch : ∀ r : Booking, serviceMatches kw r = true ↔
      ∃ s a b, r.service = some s ∧ pyLowerList s.data = a ++ kw.data ++ b := by
    intro r
    unfold serviceMatches
    cases hsrv : r.service with
    | none => simp
    | some s =>
      rw [containsSub_iff]
      constructor
      · rintro ⟨a, b, hab⟩
        exact ⟨s, a, b, rfl, hab⟩
      · rintro ⟨s2, a, b, hs2, hab⟩
        obtain rfl : s = s2 := by simpa using hs2
        exact ⟨a, b, hab⟩
  have h2 : ∀ r, r ∈ filter_bookings recs kw ↔
      r ∈ recs ∧ ∃ s a b, r.service = some s ∧
        pyLowerList s.data = a ++ kw.data ++ b := by
    intro r
    unfold filter_bookings
    rw [List.mem_filter, hmatch r]
  refine ⟨List.filter_sublist recs, h2, ?_⟩
  intro r hr
  obtain ⟨-, s, a, b, hs, hab⟩ := (h2 r).mp hr
  constructor
  · rw [hs]; simp
  · intro hempty
    rw [hempty] at hs
    obtain rfl : s = "" := by simpa using hs.symm
    have : pyLowerList ("" : String).data = [] := rfl
    rw [this] at hab
    have hkw : kw.data = [] := by
      have := List.append_eq_nil.mp (List.append_eq_nil.mp hab.symm).1
      exact this.2
    exact hk (String.ext hkw)

/-- Three sample rows: a lunch booking, one with a missing service field, and
a dinner booking. -/
def mixedBookings : List Booking :=
  [{ sampleBooking with service := some "Lunch Dine-in" },
   { sampleBooking with service := none },
   { sampleBooking with service := some "Dinner" }]

/-- Witness for C6 at a concrete input: the lunch filter on mixed rows gives
an order-preserving subsequence without missing/empty service fields. -/
theorem claim_c6_witness :
    List.Sublist (filter_bookings mixedBookings "lunch") mixedBookings ∧
    ∀ r ∈ filter_bookings mixedBookings "lunch",
      r.service ≠ none ∧ r.service ≠ some "" :=
  ⟨(claim_c6 mixedBookings "lunch" (by decide)).1,
   (claim_c6 mixedBookings "lunch" (by decide)).2.2⟩

/-- Claim C7: on a structurally valid upload, an empty filter result stops
the run in the informational empty state before generation, and a generated
document always contains at least one page. -/
theorem claim_c7 (csv : Csv) (opt : FilterOption)
    (hv : missing_columns csv.cols = []) :
    (apply_filter csv.rows opt = [] → runMain csv opt = MainOutcome.emptyFiltered) ∧
    ∀ story fn, runMain csv opt = MainOutcome.generated story fn →
      pagesOf story ≠ [] := by
  have hnm : ¬ missing_columns csv.cols ≠ [] := fun hc => hc hv
  have hvt : validate_csv_structure csv.cols = true := by
    unfold validate_csv_structure
    exact decide_eq_true hv
  have hnv : ¬ ¬ (validate_csv_structure csv.cols = true) := fun hc => hc hvt
  constructor
  · intro hempty
    unfold runMain
    rw [if_neg hnm, if_neg hnv]
    dsimp only
    rw [if_pos hempty]
  · intro story fn heq
    by_cases hempty : apply_filter csv.rows opt = []
    · have : runMain csv opt = MainOutcome.emptyFiltered := by
        unfold runMain
        rw [if_neg hnm, if_neg hnv]
        dsimp only
        rw [if_pos hempty]
      rw [this] at heq
      simp at heq
    · have hrun : runMain csv opt =
          MainOutcome.generated (generate_placecards (apply_filter csv.rows opt))
            (filename_for opt) := by
        unfold runMain
        rw [if_neg hnm, if_neg hnv]
        dsimp only
        rw [if_neg hempty]
      rw [hrun] at heq
      injection heq with h1 h2
      subst h1
      rw [pagesOf_generate]
      intro hnil
      rcases List.map_eq_nil_iff.mp hnil with hch
      exact hempty ((chunks4_eq_nil_iff _).mp hch)

/-- A structurally valid CSV holding one dinner booking. -/
def dinnerCsv : Csv :=
  { cols := required_columns
    rows := [{ sampleBooking with service := some "Dinner" }] }

/-- Witness for C7 at a concrete input: filtering a dinner-only file for
lunch yields the informational empty state, not a zero-page document. -/
theorem claim_c7_witness :
    runMain dinnerCsv FilterOption.lunchOnly = MainOutcome.emptyFiltered :=
  (claim_c7 dinnerCsv FilterOption.lunchOnly (by decide)).1 (by decide)

/-- Claim C8 counterexample: a present-but-unreadable style source (e.g. a
permission error) is not caught — only `FileNotFoundError` is — so the
operation fails instead of proceeding with the defaults. -/
theorem claim_c8_counterexample :
    load_design_specs SpecsSource.osError = Except.error PyErr.osError ∧
    load_design_specs SpecsSource.osError ≠ Except.ok (get_default_specs, true) :=
  ⟨rfl, fun h => Except.noConfusion h⟩

/-- Claim C8 (amended): only an absent style source (file not found) falls
back, non-fatally with a warning, to exactly the built-in defaults
(Helvetica, 14/12, 3.5x2.5 card, 0.5 margin, white/black, gray border on);
a readable source is used as parsed; other open/parse failures propagate. -/
theorem claim_c8_amended :
    load_design_specs SpecsSource.fileNotFound = Except.ok (get_default_specs, true) ∧
    get_default_specs.font_family = "Helvetica" ∧
    get_default_specs.title_font_size = 14 ∧
    get_default_specs.content_font_size = 12 ∧
    get_default_specs.card_width = 7 / 2 ∧
    get_default_specs.card_height = 5 / 2 ∧
    get_default_specs.margin = 1 / 2 ∧
    get_default_specs.background_color = "white" ∧
    get_default_specs.text_color = "black" ∧
    get_default_specs.border = true ∧
    get_default_specs.border_color = "gray" ∧
    (∀ specs, load_design_specs (SpecsSource.opened (Except.ok specs)) =
      Except.ok (specs, false)) :=
  ⟨rfl, rfl, rfl, rfl, rfl, rfl, rfl, rfl, rfl, rfl, rfl, fun _ => rfl⟩

/-- Claim C9: each of the three normalizers returns a string on every input
(present or missing) — the time normalizer's catch-all handler means no
exception escapes it, and string inputs raise nothing at all — and every
malformed field degrades to its documented placeholder. -/
theorem claim_c9 :
    (∀ x : Option String, calc_end_time_checked x = Except.ok (calculate_end_time x)) ∧
    calculate_end_time none = "nan - nan" ∧
    capitalize_customer_name none = "Guest" ∧
    extract_table_numbers none = "TBD" ∧
    (∀ s : String, calc_end_time_body (some s) =
      Except.ok (calculate_end_time (some s))) ∧
    (∀ s : String, tryFormats (pyStrip s) = none →
      calculate_end_time (some s) = s ++ " - " ++ s) := by
  refine ⟨?_, rfl, rfl, rfl, ?_, fun _ h => calculate_end_time_unparsed h⟩
  · intro x
    cases x <;> rfl
  · intro s
    rfl

/-- Witness for C9 at a concrete input: an unparseable time degrades to the
passthrough placeholder. -/
theorem claim_c9_witness :
    calculate_end_time (some "soon-ish") = "soon-ish - soon-ish" :=
  claim_c9.2.2.2.2.2 "soon-ish" (by decide)

/-- Claim C10 counterexample: name capitalization is not idempotent — a
whitespace-only name maps to `""`, which maps on to `"Guest"`. -/
theorem claim_c10_counterexample :
    capitalize_customer_name (some (capitalize_customer_name (some " "))) ≠
      capitalize_customer_name (some " ") := by decide

/-- Claim C10 (amended): table-number extraction is idempotent on every
string; name capitalization is idempotent on every string except the
nonempty whitespace-only ones (exactly the inputs of the counterexample). -/
theorem claim_c10_amended :
    (∀ s : String, extract_table_numbers (some (extract_table_numbers (some s))) =
      extract_table_numbers (some s)) ∧
    ∀ s : String, (trimList s.data = [] → s = "") →
      capitalize_customer_name (some (capitalize_customer_name (some s))) =
        capitalize_customer_name (some s) :=
  ⟨extract_idem, capitalize_idem⟩

/-- Witness for C10 (amended) at concrete inputs. -/
theorem claim_c10_witness :
    extract_table_numbers (some (extract_table_numbers (some "5, T12"))) =
      extract_table_numbers (some "5, T12") ∧
    capitalize_customer_name (some (capitalize_customer_name (some "john mcdonald"))) =
      capitalize_customer_name (some "john mcdonald") :=
  ⟨claim_c10_amended.1 "5, T12", claim_c10_amended.2 "john mcdonald" (by decide)⟩

end Brewvino

